import Mathlib

/-!
Verification of the phased-array beamforming core of the Mixer repository
(`backend/core/beamformer.py`).

The Python classes `PhasedArray` and `BeamSystem` are shallowly embedded:
NumPy float arrays become Lean lists or functions over `ℝ`, in-place
mutation becomes explicit state passing, and Python exceptions become
`Except`/`Option` results.  All machine arithmetic is modelled over `ℝ`
(the spec and claims are about the real-number algorithm, not about IEEE
rounding).
-/

namespace Mixer

open Real

/-- Python exceptions that the embedded code can raise.
`valueError "Frequency must be positive."` is the spec's `InvalidFrequency`;
`valueError "invalid literal for int() with base 10"` models the error of
`int(s)` on a malformed string (the offending literal is elided from the
message); `zeroDivisionError` models float division by zero. -/
inductive PyError
  | valueError (msg : String)
  | zeroDivisionError
deriving DecidableEq

/-- A sparse offset dictionary entry `{x: ..., y: ...}`; either key may be
absent, in which case `dict.get` supplies the default `0`. -/
structure Offset where
  xOff : Option ℝ
  yOff : Option ℝ

/-- Value of a nonempty list of decimal digit characters, `none` if any
character is not a digit. -/
def pyDigits (cs : List Char) : Option ℕ :=
  if cs ≠ [] ∧ cs.all (fun c => c.isDigit) then
    some (cs.foldl (fun n c => 10 * n + (c.toNat - 48)) 0)
  else none

/-- Python's `int(s)` on a decimal string: optional sign followed by
digits; anything else (e.g. `"abc"`, `"1.5"`) fails.  (Surrounding
whitespace and underscore digit separators, which `int` also accepts, are
elided; no claim exercises them.) -/
def pyint (s : String) : Option ℤ :=
  match s.toList with
  | '-' :: cs => (pyDigits cs).map (fun n => -(n : ℤ))
  | '+' :: cs => (pyDigits cs).map (fun n => (n : ℤ))
  | cs => (pyDigits cs).map (fun n => (n : ℤ))

noncomputable section

/-- Models `np.radians`: degrees to radians. -/
def radians (x : ℝ) : ℝ := x * π / 180

/-- Models `np.degrees`: radians to degrees. -/
def degrees (x : ℝ) : ℝ := x * 180 / π

/-- Models `np.linspace a b n`: `n` evenly spaced samples over `[a, b]`
(for `n = 1` the single sample is `a`; for `n = 0` the empty list). -/
def linspace (a b : ℝ) (n : ℕ) : List ℝ :=
  (List.range n).map
    (fun i : ℕ => if n = 1 then a else a + (i : ℝ) * (b - a) / ((n : ℝ) - 1))

/-- Python's float `%` operator: `a - b * ⌊a / b⌋` (floor modulus). -/
def pymod (a b : ℝ) : ℝ := a - b * ⌊a / b⌋

/-- Models `np.arctan2 y x`, the angle of the point `(x, y)` in `(-π, π]`,
which is exactly `Complex.arg` of `x + y·i`. -/
def arctan2 (y x : ℝ) : ℝ := Complex.arg ⟨x, y⟩

/-- The state of a `PhasedArray` object: configuration fields together
with the derived physics fields (`wavelength`, `k`, `distance`) and the
generated data (`freq_multipliers`, `element_positions`), exactly the
attributes the Python object carries. -/
structure PhasedArray where
  num_elements : ℕ
  geometry : String
  curvature : ℝ
  position : ℝ × ℝ
  spacing_factor : ℝ
  frequencyB : ℝ      -- backing field `_frequency`
  steeringB : ℝ       -- backing field `_steering_angle`
  wavelength : ℝ
  k : ℝ
  distance : ℝ
  freq_multipliers : List ℝ
  element_positions : List (ℝ × ℝ)

namespace PhasedArray

/-- The constant `self.propagation_speed = 3e8`. -/
def propagation_speed : ℝ := 3e8

/-- Getter `frequency`. -/
def frequency (a : PhasedArray) : ℝ := a.frequencyB

/-- Getter `steering_angle`. -/
def steering_angle (a : PhasedArray) : ℝ := a.steeringB

/-- Embeds `_recalculate_physics`: recompute `wavelength`, `k` and `distance`
from the stored frequency. -/
def recalculate_physics (a : PhasedArray) : PhasedArray :=
  let wl := propagation_speed / a.frequencyB
  { a with wavelength := wl, k := 2 * π / wl, distance := wl * a.spacing_factor }

/-- Embeds `_generate_local_positions`: x positions evenly spaced over
`[-span/2, span/2]` with `span = (num_elements - 1) * distance`;
y is `0.2 + curvature * x²` for geometry `"curved"`, else `0`. -/
def generate_local_positions (a : PhasedArray) : List (ℝ × ℝ) :=
  let span := ((a.num_elements : ℝ) - 1) * a.distance
  let x_pos := linspace (-span / 2) (span / 2) a.num_elements
  let baseline_y : ℝ := 0.2
  x_pos.map (fun x =>
    (x, if a.geometry = "curved" then baseline_y + a.curvature * x ^ 2 else 0))

/-- The happy path of `__init__` (reached whenever the float division
`3e8 / frequency` does not raise, i.e. whenever `frequency ≠ 0`):
store the configuration, run `_recalculate_physics`, initialize the
frequency multipliers to ones, and generate the element positions. -/
def make (n : ℕ) (g : String) (cv f : ℝ) (pos : ℝ × ℝ) (sf : ℝ) : PhasedArray :=
  let a0 : PhasedArray :=
    { num_elements := n, geometry := g, curvature := cv, position := pos
      spacing_factor := sf, frequencyB := f, steeringB := 0
      wavelength := 0, k := 0, distance := 0
      freq_multipliers := List.replicate n 1, element_positions := [] }
  let a1 := recalculate_physics a0
  { a1 with element_positions := generate_local_positions a1 }

/-- Embeds `__init__`.  The constructor performs NO sign validation on
`frequency`: the only failure is the float division `3e8 / frequency`
raising `ZeroDivisionError` when `frequency` is exactly `0`; any nonzero
(including negative) frequency is accepted. -/
def init (n : ℕ) (g : String) (cv f : ℝ) (pos : ℝ × ℝ) (sf : ℝ) :
    Except PyError PhasedArray :=
  if f = 0 then .error .zeroDivisionError else .ok (make n g cv f pos sf)

/-- The `frequency` setter: raises `ValueError` (the spec's
`InvalidFrequency`) for `val ≤ 0` before touching any field; otherwise
stores the value, recomputes the physics constants and regenerates the
element positions. -/
def set_frequency (a : PhasedArray) (val : ℝ) : Except PyError PhasedArray :=
  if val ≤ 0 then .error (.valueError "Frequency must be positive.")
  else
    let a1 := recalculate_physics { a with frequencyB := val }
    .ok { a1 with element_positions := generate_local_positions a1 }

/-- The `steering_angle` setter: stores `((val + 180) % 360) - 180`;
it is total (never raises). -/
def set_steering_angle (a : PhasedArray) (val : ℝ) : PhasedArray :=
  { a with steeringB := pymod (val + 180) 360 - 180 }

/-- Embeds `apply_offsets`: iterate the dict entries in order; `int(idx_str)`
raising `ValueError` aborts the loop (entries already processed stay
applied — the Python object was mutated in place); in-range indices get
the offset added, out-of-range indices are skipped silently. -/
def apply_offsets (a : PhasedArray) :
    List (String × Offset) → PhasedArray × Option PyError
  | [] => (a, none)
  | (idx_str, off) :: rest =>
    match pyint idx_str with
    | none => (a, some (.valueError "invalid literal for int() with base 10"))
    | some idx =>
      let a' :=
        if 0 ≤ idx ∧ idx < (a.element_positions.length : ℤ) then
          let p := a.element_positions.getD idx.toNat (0, 0)
          let newPositions :=
            a.element_positions.set idx.toNat
              (p.1 + off.xOff.getD 0, p.2 + off.yOff.getD 0)
          { a with element_positions := newPositions }
        else a
      apply_offsets a' rest

/-- Embeds `set_frequency_multipliers`: same iteration/abort/skip structure as
`apply_offsets`, writing `float(mult)` at in-range indices (bounds
checked against `num_elements`). -/
def set_frequency_multipliers (a : PhasedArray) :
    List (String × ℝ) → PhasedArray × Option PyError
  | [] => (a, none)
  | (idx_str, mult) :: rest =>
    match pyint idx_str with
    | none => (a, some (.valueError "invalid literal for int() with base 10"))
    | some idx =>
      let a' :=
        if 0 ≤ idx ∧ idx < (a.num_elements : ℤ) then
          { a with freq_multipliers := a.freq_multipliers.set idx.toNat mult }
        else a
      set_frequency_multipliers a' rest

/-- Embeds `get_global_positions`: local positions translated by the array's
world position. -/
def get_global_positions (a : PhasedArray) : List (ℝ × ℝ) :=
  a.element_positions.map (fun p => (p.1 + a.position.1, p.2 + a.position.2))

/-- Embeds `calculate_field_contribution`, pointwise over the grid: the NumPy
broadcast produces, at grid point `(r, c)`, the sum over elements of
`sin(k_i · R_i + steering_phase_i)`.  Grids are modelled as functions
from row/column indices to coordinates. -/
def calculate_field_contribution (a : PhasedArray)
    (grid_x grid_y : ℕ → ℕ → ℝ) : ℕ → ℕ → ℝ :=
  fun r c =>
    let theta_rad := radians a.steering_angle
    let delay_rad := a.k * a.distance * Real.sin theta_rad
    let global_pos := a.get_global_positions
    ∑ i ∈ Finset.range a.num_elements,
      let xe := (global_pos.getD i (0, 0)).1
      let ye := (global_pos.getD i (0, 0)).2
      let R := Real.sqrt ((grid_x r c - xe) ^ 2 + (grid_y r c - ye) ^ 2)
      Real.sin (a.k * a.freq_multipliers.getD i 0 * R + (-(i : ℝ)) * delay_rad)

/-- The far-field phase of element `i` of `get_beam_profile` at azimuth
`az` (radians): `-k_i · r_i · cos(az - θ_i) + phases[i]` with `(r_i, θ_i)`
the polar form of the LOCAL element position. -/
def element_phase (a : PhasedArray) (az : ℝ) (i : ℕ) : ℝ :=
  let delay_rad := a.k * a.distance * Real.sin (radians a.steering_angle)
  let x := (a.element_positions.getD i (0, 0)).1
  let y := (a.element_positions.getD i (0, 0)).2
  let r_elem := Real.sqrt (x ^ 2 + y ^ 2)
  let theta_elem := arctan2 y x
  let phase_term :=
    -(a.k * a.freq_multipliers.getD i 0) * r_elem * Real.cos (az - theta_elem)
      + (-(i : ℝ)) * delay_rad
  phase_term

/-- The accumulated `beam_summation` of `get_beam_profile` at one azimuth:
`Σ_i exp(i·phase_i)`. -/
def beam_sum (a : PhasedArray) (az : ℝ) : ℂ :=
  ∑ i ∈ Finset.range a.num_elements, Complex.exp (Complex.I * (element_phase a az i : ℂ))

/-- Embeds `get_beam_profile`: sample azimuths uniformly (in radians) between the
given start/end angles (degrees), return the sampled angles in degrees and
the magnitude `|beam_summation|` at each azimuth. -/
def get_beam_profile (a : PhasedArray) (start_angle end_angle : ℝ) (points : ℕ) :
    List ℝ × List ℝ :=
  let azimuth_rad := linspace (radians start_angle) (radians end_angle) points
  let angles_deg := azimuth_rad.map degrees
  (angles_deg, azimuth_rad.map (fun az => Complex.abs (beam_sum a az)))

end PhasedArray

/-- The state of a `BeamSystem` object: the grid (as coordinate
functions), the owned arrays, and the mutable `total_field`. -/
structure BeamSystem where
  resolution : ℕ
  bounds : ℝ × ℝ × ℝ × ℝ
  arrays : List PhasedArray
  X : ℕ → ℕ → ℝ
  Y : ℕ → ℕ → ℝ
  total_field : ℕ → ℕ → ℝ

namespace BeamSystem

/-- Embeds `BeamSystem.__init__`: meshgrid coordinates (`X` varies along
columns, `Y` along rows), no arrays, zero field. -/
def init (resolution : ℕ) (min_x max_x min_y max_y : ℝ) : BeamSystem :=
  let xs := linspace min_x max_x resolution
  let ys := linspace min_y max_y resolution
  { resolution := resolution
    bounds := (min_x, max_x, min_y, max_y)
    arrays := []
    X := fun _ c => xs.getD c 0
    Y := fun r _ => ys.getD r 0
    total_field := fun _ _ => 0 }

/-- Embeds `add_array`. -/
def add_array (b : BeamSystem) (a : PhasedArray) : BeamSystem :=
  { b with arrays := b.arrays ++ [a] }

/-- Embeds `simulate`: zero the field, then add every owned array's
contribution over the shared grid. -/
def simulate (b : BeamSystem) : BeamSystem :=
  let tf :=
    b.arrays.foldl
      (fun f arr => fun r c => f r c + arr.calculate_field_contribution b.X b.Y r c)
      (fun _ _ => 0)
  { b with total_field := tf }

end BeamSystem

/-! ## General helper lemmas -/

lemma getD_map {α β : Type} (f : α → β) (l : List α) (i : ℕ) (hi : i < l.length)
    (dA : α) (dB : β) : (l.map f).getD i dB = f (l.getD i dA) := by
  rw [List.getD_eq_getElem?_getD, List.getD_eq_getElem?_getD, List.getElem?_map,
    List.getElem?_eq_getElem hi]
  rfl

lemma linspace_length (a b : ℝ) (n : ℕ) : (linspace a b n).length = n := by
  unfold linspace
  rw [List.length_map, List.length_range]

lemma linspace_getD (a b : ℝ) (n i : ℕ) (hi : i < n) :
    (linspace a b n).getD i 0 =
      if n = 1 then a else a + i * (b - a) / ((n : ℝ) - 1) := by
  unfold linspace
  rw [getD_map (fun j : ℕ => if n = 1 then a else a + (j : ℝ) * (b - a) / ((n : ℝ) - 1))
      (List.range n) i (by simpa using hi) 0 0]
  rw [List.getD_eq_getElem?_getD, List.getElem?_range hi]
  rfl

lemma pymod_nonneg_lt (a b : ℝ) (hb : 0 < b) : 0 ≤ pymod a b ∧ pymod a b < b := by
  have hb' : b ≠ 0 := ne_of_gt hb
  have h : pymod a b = b * Int.fract (a / b) := by
    unfold pymod Int.fract
    field_simp
  refine ⟨?_, ?_⟩
  · rw [h]; exact mul_nonneg hb.le (Int.fract_nonneg _)
  · rw [h]
    calc b * Int.fract (a / b) < b * 1 :=
          mul_lt_mul_of_pos_left (Int.fract_lt_one _) hb
    _ = b := mul_one b

/-! ## Unfolding lemmas for the embedded operations -/

lemma make_element_positions (n : ℕ) (g : String) (cv f : ℝ) (pos : ℝ × ℝ) (sf : ℝ) :
    (PhasedArray.make n g cv f pos sf).element_positions
      = PhasedArray.generate_local_positions
          (PhasedArray.recalculate_physics
            { num_elements := n, geometry := g, curvature := cv, position := pos
              spacing_factor := sf, frequencyB := f, steeringB := 0
              wavelength := 0, k := 0, distance := 0
              freq_multipliers := List.replicate n 1, element_positions := [] }) := rfl

lemma generate_eq (a : PhasedArray) :
    a.generate_local_positions
      = (linspace (-(((a.num_elements : ℝ) - 1) * a.distance) / 2)
            ((((a.num_elements : ℝ) - 1) * a.distance) / 2) a.num_elements).map
          (fun x => (x, if a.geometry = "curved" then 0.2 + a.curvature * x ^ 2 else 0)) :=
  rfl

/-! ## Claim theorems -/

/-- C8: `BeamSystem.simulate` resets `totalField` to zero before summing the
owned arrays' contributions: with zero arrays the resulting field is zero at
every grid point, and running `simulate` twice in a row with unchanged array
states yields the same `totalField` as after the first run. -/
theorem C8_simulate_zero_and_idempotent (b : BeamSystem) :
    (b.arrays = [] → ∀ r c, b.simulate.total_field r c = 0)
    ∧ b.simulate.simulate.total_field = b.simulate.total_field := by
  constructor
  · intro h r c
    simp [BeamSystem.simulate, h]
  · rfl

/-- Witness for C8: a freshly constructed `BeamSystem` has no arrays, and
after `simulate` its field is zero at grid point (0, 0). -/
theorem C8_witness :
    (BeamSystem.init 300 (-25) 25 0 40).simulate.total_field 0 0 = 0 :=
  (C8_simulate_zero_and_idempotent _).1 rfl 0 0

/-- C7 counterexample: the claim says the stored steering angle always lies
in (−180°, 180°] and that input 180 is stored as 180; the code stores
`((180 + 180) mod 360) − 180 = −180`. -/
theorem C7_counterexample :
    (PhasedArray.set_steering_angle
        (PhasedArray.make 2 "linear" 0 6e8 (0, 0) 0.5) 180).steering_angle = -180
    ∧ ((-180 : ℝ)) ≠ 180 := by
  constructor
  · show pymod (180 + 180) 360 - 180 = -180
    unfold pymod
    rw [show ((180 : ℝ) + 180) / 360 = 1 by norm_num]
    norm_num
  · norm_num

/-- C7 amended: for every input `degrees` the setter stores
`((degrees + 180) mod 360) − 180`, the stored value always lies in the
half-open range [−180°, 180°) (in particular 180 is stored as −180, not
180), and the setter is total (it never raises). -/
theorem C7_steering_angle_normalization (a : PhasedArray) (v : ℝ) :
    (a.set_steering_angle v).steering_angle = pymod (v + 180) 360 - 180
    ∧ -180 ≤ (a.set_steering_angle v).steering_angle
    ∧ (a.set_steering_angle v).steering_angle < 180 := by
  have h := pymod_nonneg_lt (v + 180) 360 (by norm_num)
  refine ⟨rfl, ?_, ?_⟩
  · show -180 ≤ pymod (v + 180) 360 - 180
    linarith [h.1]
  · show pymod (v + 180) 360 - 180 < 180
    linarith [h.2]

/-- C5: for `numElements ≥ 1` the generated x positions are evenly spaced
over [−span/2, span/2] (`x_i = −span/2 + i·spacing`, with
`span = (numElements − 1)·spacing`); with Linear geometry y is 0 for every
element even when curvature > 0, and with Curved geometry y = 0.2 + c·x². -/
theorem C5_generate_local_positions (a : PhasedArray)
    (hN : 1 ≤ a.num_elements) (hc : 0 ≤ a.curvature) (i : ℕ)
    (hi : i < a.num_elements) :
    ((a.generate_local_positions.getD i (0, 0)).1
        = -(((a.num_elements : ℝ) - 1) * a.distance) / 2 + i * a.distance)
    ∧ (a.geometry = "linear" → (a.generate_local_positions.getD i (0, 0)).2 = 0)
    ∧ (a.geometry = "curved" →
        (a.generate_local_positions.getD i (0, 0)).2
          = 0.2 + a.curvature * ((a.generate_local_positions.getD i (0, 0)).1) ^ 2) := by
  have hx : a.generate_local_positions.getD i (0, 0)
      = ((linspace (-(((a.num_elements : ℝ) - 1) * a.distance) / 2)
            ((((a.num_elements : ℝ) - 1) * a.distance) / 2) a.num_elements).getD i 0,
         if a.geometry = "curved" then
           0.2 + a.curvature *
             ((linspace (-(((a.num_elements : ℝ) - 1) * a.distance) / 2)
                ((((a.num_elements : ℝ) - 1) * a.distance) / 2) a.num_elements).getD i 0) ^ 2
         else 0) := by
    rw [generate_eq, getD_map
      (fun x : ℝ => (x, if a.geometry = "curved" then 0.2 + a.curvature * x ^ 2 else 0))
      _ i (by rw [linspace_length]; exact hi) 0 (0, 0)]
  have hlin : (linspace (-(((a.num_elements : ℝ) - 1) * a.distance) / 2)
        ((((a.num_elements : ℝ) - 1) * a.distance) / 2) a.num_elements).getD i 0
      = -(((a.num_elements : ℝ) - 1) * a.distance) / 2 + i * a.distance := by
    rw [linspace_getD _ _ _ i hi]
    by_cases h1 : a.num_elements = 1
    · have hi0 : i = 0 := by omega
      subst hi0
      rw [if_pos h1]
      simp
    · rw [if_neg h1]
      have h2 : 2 ≤ a.num_elements := by omega
      have h2' : (2 : ℝ) ≤ (a.num_elements : ℝ) := by exact_mod_cast h2
      have hne : ((a.num_elements : ℝ) - 1) ≠ 0 := by linarith
      field_simp
      ring
  refine ⟨?_, ?_, ?_⟩
  · rw [hx]
    exact hlin
  · intro hg
    rw [hx]
    have : ¬ (a.geometry = "curved") := by rw [hg]; decide
    simp [this]
  · intro hg
    rw [hx]
    simp [hg]

lemma recalc_geometry (a : PhasedArray) :
    a.recalculate_physics.geometry = a.geometry := rfl

lemma recalc_curvature (a : PhasedArray) :
    a.recalculate_physics.curvature = a.curvature := rfl

lemma recalc_num_elements (a : PhasedArray) :
    a.recalculate_physics.num_elements = a.num_elements := rfl

lemma recalc_distance (a : PhasedArray) :
    a.recalculate_physics.distance
      = PhasedArray.propagation_speed / a.frequencyB * a.spacing_factor := rfl

/-- Helper: the element positions of a freshly constructed array, elementwise. -/
lemma make_positions_getD (n : ℕ) (g : String) (cv f : ℝ) (pos : ℝ × ℝ) (sf : ℝ)
    (i : ℕ) (hi : i < n) :
    (PhasedArray.make n g cv f pos sf).element_positions.getD i (0, 0)
      = ((linspace (-(((n : ℝ) - 1) * (PhasedArray.propagation_speed / f * sf)) / 2)
            ((((n : ℝ) - 1) * (PhasedArray.propagation_speed / f * sf)) / 2) n).getD i 0,
         if g = "curved" then
           0.2 + cv *
             ((linspace (-(((n : ℝ) - 1) * (PhasedArray.propagation_speed / f * sf)) / 2)
                ((((n : ℝ) - 1) * (PhasedArray.propagation_speed / f * sf)) / 2) n).getD
                  i 0) ^ 2
         else 0) := by
  rw [make_element_positions, generate_eq]
  simp only [recalc_geometry, recalc_curvature, recalc_num_elements, recalc_distance]
  rw [getD_map
    (fun x : ℝ =>
      (x, if g = "curved" then 0.2 + cv * x ^ 2 else 0))
    _ i (by rw [linspace_length]; exact hi) 0 (0, 0)]

/-- C6 counterexample: with curvature 0, Curved geometry puts element 0 at
y = 0.2 while Linear puts it at y = 0; the positions are not identical. -/
theorem C6_counterexample :
    (PhasedArray.make 2 "curved" 0 6e8 (0, 0) 0.5).element_positions.getD 0 (0, 0)
      ≠ (PhasedArray.make 2 "linear" 0 6e8 (0, 0) 0.5).element_positions.getD 0 (0, 0) := by
  have h1 := make_positions_getD 2 "curved" 0 6e8 (0, 0) 0.5 0 (by norm_num)
  have h2 := make_positions_getD 2 "linear" 0 6e8 (0, 0) 0.5 0 (by norm_num)
  intro h
  rw [h1, h2, if_pos rfl, if_neg (by decide : ¬("linear" : String) = "curved")] at h
  have h3 := congrArg Prod.snd h
  simp only [] at h3
  norm_num at h3

/-- C6 amended: an array constructed Curved with curvature 0 has the same
x positions as the Linear one, but every y is shifted up by the fixed
baseline offset 0.2 (the claimed elementwise identity fails by exactly this
constant). -/
theorem C6_curved_zero_curvature (n : ℕ) (f : ℝ) (pos : ℝ × ℝ) (sf : ℝ) :
    (PhasedArray.make n "curved" 0 f pos sf).element_positions
      = (PhasedArray.make n "linear" 0 f pos sf).element_positions.map
          (fun p => (p.1, p.2 + 0.2)) := by
  show (linspace (-(((n : ℝ) - 1) * (PhasedArray.propagation_speed / f * sf)) / 2)
          ((((n : ℝ) - 1) * (PhasedArray.propagation_speed / f * sf)) / 2) n).map
        (fun x => (x, if ("curved" : String) = "curved" then 0.2 + 0 * x ^ 2 else 0))
      = ((linspace (-(((n : ℝ) - 1) * (PhasedArray.propagation_speed / f * sf)) / 2)
            ((((n : ℝ) - 1) * (PhasedArray.propagation_speed / f * sf)) / 2) n).map
          (fun x => (x, if ("linear" : String) = "curved" then 0.2 + 0 * x ^ 2 else 0))).map
          (fun p => (p.1, p.2 + 0.2))
  rw [List.map_map]
  apply List.map_congr_left
  intro x _
  simp only [Function.comp_apply]
  norm_num [show ¬("linear" : String) = "curved" from by decide]

/-- C3 counterexample: the claim says construction with frequency ≤ 0
raises `InvalidFrequency`; the constructor performs no validation and
accepts frequency −1 without error. -/
theorem C3_counterexample :
    PhasedArray.init 10 "linear" 0 (-1) (0, 0) 0.5
      = Except.ok (PhasedArray.make 10 "linear" 0 (-1) (0, 0) 0.5) := by
  unfold PhasedArray.init
  rw [if_neg (by norm_num : ¬((-1 : ℝ)) = 0)]

/-- C3 amended: the frequency SETTER raises `InvalidFrequency` exactly when
v ≤ 0 (raising before mutating, so the state is unchanged on the error
path), and on success stores v and recomputes wavelength = c/v,
k = 2π/wavelength and spacing = wavelength·spacingFactor together while
regenerating the element positions, so no field is stale; construction,
however, performs no such validation (a negative frequency is accepted,
witnessed by `C3_counterexample`). -/
theorem C3_frequency_setter (a : PhasedArray) (v : ℝ) :
    (v ≤ 0 → a.set_frequency v
        = Except.error (.valueError "Frequency must be positive."))
    ∧ (0 < v → ∀ a', a.set_frequency v = Except.ok a' →
        a'.frequency = v
        ∧ a'.wavelength = PhasedArray.propagation_speed / a'.frequency
        ∧ a'.k = 2 * π / a'.wavelength
        ∧ a'.distance = a'.wavelength * a'.spacing_factor
        ∧ a'.element_positions = a'.generate_local_positions
        ∧ a'.spacing_factor = a.spacing_factor)
    ∧ (0 < v → (a.set_frequency v).isOk = true) := by
  refine ⟨?_, ?_, ?_⟩
  · intro hv
    unfold PhasedArray.set_frequency
    rw [if_pos hv]
  · intro hv a' h
    unfold PhasedArray.set_frequency at h
    rw [if_neg (not_le.mpr hv)] at h
    simp only [Except.ok.injEq] at h
    subst h
    exact ⟨rfl, rfl, rfl, rfl, rfl, rfl⟩
  · intro hv
    unfold PhasedArray.set_frequency
    rw [if_neg (not_le.mpr hv)]
    rfl

/-- Witness for C3 at a concrete array and v = −5. -/
theorem C3_witness :
    (PhasedArray.make 2 "linear" 0 6e8 (0, 0) 0.5).set_frequency (-5)
      = Except.error (.valueError "Frequency must be positive.") :=
  (C3_frequency_setter _ _).1 (by norm_num)

/-- C1: at every grid point, `calculate_field_contribution` equals the sum
over elements of `sin(k·m_i·R_i + (−i)·k·spacing·sin(radians θ))`, with
`R_i` the Euclidean distance from the element's global position (local
position plus array position) to the grid point; with 0 elements the field
is identically 0.  (NumPy broadcasting requires the positions array and the
element index range to agree in length, hence the length hypothesis, an
invariant of every reachable state.) -/
theorem C1_field_contribution (a : PhasedArray) (grid_x grid_y : ℕ → ℕ → ℝ)
    (r c : ℕ) (hlen : a.element_positions.length = a.num_elements) :
    (a.calculate_field_contribution grid_x grid_y r c
      = ∑ i ∈ Finset.range a.num_elements,
          Real.sin
            (a.k * a.freq_multipliers.getD i 0
                * Real.sqrt
                  ((grid_x r c - ((a.element_positions.getD i (0, 0)).1 + a.position.1)) ^ 2
                    + (grid_y r c - ((a.element_positions.getD i (0, 0)).2 + a.position.2)) ^ 2)
              + (-(i : ℝ)) * (a.k * a.distance * Real.sin (radians a.steering_angle))))
    ∧ (a.num_elements = 0 → a.calculate_field_contribution grid_x grid_y r c = 0) := by
  constructor
  · unfold PhasedArray.calculate_field_contribution
    dsimp only
    refine Finset.sum_congr rfl (fun i hi => ?_)
    rw [Finset.mem_range] at hi
    unfold PhasedArray.get_global_positions
    rw [getD_map (fun p : ℝ × ℝ => (p.1 + a.position.1, p.2 + a.position.2))
      a.element_positions i (by rw [hlen]; exact hi) (0, 0) (0, 0)]
  · intro h
    unfold PhasedArray.calculate_field_contribution
    dsimp only
    rw [h]
    simp

/-- Witness for C1: a 0-element array yields a zero field at a grid point. -/
theorem C1_witness :
    (PhasedArray.make 0 "linear" 0 6e8 (0, 0) 0.5).calculate_field_contribution
        (fun _ _ => 1) (fun _ _ => 2) 0 0 = 0 :=
  (C1_field_contribution _ _ _ 0 0 rfl).2 rfl

/-- C2: `get_beam_profile` returns `points` azimuth samples spaced
uniformly in degrees between the start and end angles, and at each sampled
azimuth φ the magnitude `|Σ_i exp(j·(−k_i·r_i·cos(φ − θ_i) +
(−i)·k·spacing·sin(radians θ_steer)))|` with `(r_i, θ_i)` the polar form of
element i's LOCAL position; the profile never reads the array's world
position, so two arrays differing only in `position` produce identical
profiles. -/
theorem C2_beam_profile (a : PhasedArray) (s e : ℝ) (n : ℕ) (p : ℝ × ℝ) :
    ((a.get_beam_profile s e n).1.length = n
      ∧ (a.get_beam_profile s e n).2.length = n)
    ∧ (n = 1 → (a.get_beam_profile s e n).1 = [s])
    ∧ (2 ≤ n → ∀ j, j < n →
        (a.get_beam_profile s e n).1.getD j 0 = s + j * (e - s) / ((n : ℝ) - 1))
    ∧ (∀ j, j < n →
        (a.get_beam_profile s e n).2.getD j 0
          = Complex.abs (∑ i ∈ Finset.range a.num_elements,
              Complex.exp (Complex.I *
                ((-(a.k * a.freq_multipliers.getD i 0)
                    * Real.sqrt ((a.element_positions.getD i (0, 0)).1 ^ 2
                        + (a.element_positions.getD i (0, 0)).2 ^ 2)
                    * Real.cos ((linspace (radians s) (radians e) n).getD j 0
                        - arctan2 (a.element_positions.getD i (0, 0)).2
                            (a.element_positions.getD i (0, 0)).1)
                  + (-(i : ℝ)) * (a.k * a.distance
                      * Real.sin (radians a.steering_angle))) : ℝ))))
    ∧ ({ a with position := p } : PhasedArray).get_beam_profile s e n
        = a.get_beam_profile s e n := by
  refine ⟨⟨?_, ?_⟩, ?_, ?_, ?_, ?_⟩
  · unfold PhasedArray.get_beam_profile
    dsimp only
    rw [List.length_map, linspace_length]
  · unfold PhasedArray.get_beam_profile
    dsimp only
    rw [List.length_map, linspace_length]
  · intro h1
    subst h1
    unfold PhasedArray.get_beam_profile linspace
    simp only [List.range_succ, List.range_zero, List.nil_append, List.map_cons,
      List.map_nil, if_pos rfl]
    unfold degrees radians
    have hπ : π ≠ 0 := Real.pi_ne_zero
    field_simp
  · intro h2 j hj
    unfold PhasedArray.get_beam_profile
    dsimp only
    rw [getD_map degrees (linspace (radians s) (radians e) n) j
      (by rw [linspace_length]; exact hj) 0 0]
    rw [linspace_getD _ _ _ j hj, if_neg (by omega : ¬n = 1)]
    unfold degrees radians
    have hπ : π ≠ 0 := Real.pi_ne_zero
    have hne : ((n : ℝ) - 1) ≠ 0 := by
      have h2' : (2 : ℝ) ≤ (n : ℝ) := by exact_mod_cast h2
      linarith
    field_simp
    ring
  · intro j hj
    unfold PhasedArray.get_beam_profile
    dsimp only
    rw [getD_map (fun az => Complex.abs (a.beam_sum az))
      (linspace (radians s) (radians e) n) j
      (by rw [linspace_length]; exact hj) 0 0]
    unfold PhasedArray.beam_sum PhasedArray.element_phase
    dsimp only
  · rfl

/-- Witness for C2: with 4 samples over [0°, 90°], sample 1 is at 30°. -/
theorem C2_witness :
    ((PhasedArray.make 2 "linear" 0 6e8 (0, 0) 0.5).get_beam_profile 0 90 4).1.getD 1 0
      = 30 := by
  have h := (C2_beam_profile (PhasedArray.make 2 "linear" 0 6e8 (0, 0) 0.5)
    0 90 4 (1, 1)).2.2.1 (by norm_num) 1 (by norm_num)
  rw [h]
  norm_num

/-- Witness for C5 at a concrete 2-element linear array (element 0). -/
theorem C5_witness :
    (((PhasedArray.make 2 "linear" 0 6e8 (0, 0) 0.5).generate_local_positions.getD
          0 (0, 0)).1
      = -((((PhasedArray.make 2 "linear" 0 6e8 (0, 0) 0.5).num_elements : ℝ) - 1)
            * (PhasedArray.make 2 "linear" 0 6e8 (0, 0) 0.5).distance) / 2
        + (0 : ℕ) * (PhasedArray.make 2 "linear" 0 6e8 (0, 0) 0.5).distance) :=
  (C5_generate_local_positions _ (by decide) (le_refl 0) 0 (by decide)).1

lemma getD_set_eq {α : Type} (l : List α) (m : ℕ) (v d : α) (h : m < l.length) :
    (l.set m v).getD m d = v := by
  rw [List.getD_eq_getElem?_getD, List.getElem?_set_self h]
  rfl

lemma getD_set_ne {α : Type} (l : List α) (m j : ℕ) (v d : α) (h : m ≠ j) :
    (l.set m v).getD j d = l.getD j d := by
  rw [List.getD_eq_getElem?_getD, List.getElem?_set_ne h, ← List.getD_eq_getElem?_getD]

/-- Helper for C9: when every key parses, `apply_offsets` raises nothing,
preserves the number of elements, and each element's final position is the
original one plus the total offset of the entries naming it. -/
lemma apply_offsets_parsed (es : List (String × Offset)) (a : PhasedArray)
    (h : ∀ x ∈ es, (pyint x.1).isSome = true) :
    ((a.apply_offsets es).2 = none)
    ∧ ((a.apply_offsets es).1.element_positions.length = a.element_positions.length)
    ∧ (∀ j, j < a.element_positions.length →
        (a.apply_offsets es).1.element_positions.getD j (0, 0)
          = ((a.element_positions.getD j (0, 0)).1
              + ((es.filter (fun x => pyint x.1 == some (j : ℤ))).map
                  (fun x => x.2.xOff.getD 0)).sum,
             (a.element_positions.getD j (0, 0)).2
              + ((es.filter (fun x => pyint x.1 == some (j : ℤ))).map
                  (fun x => x.2.yOff.getD 0)).sum)) := by
  induction es generalizing a with
  | nil =>
    refine ⟨rfl, rfl, fun j hj => ?_⟩
    simp [PhasedArray.apply_offsets]
  | cons hd tl ih =>
    obtain ⟨k, off⟩ := hd
    obtain ⟨idx, hidx0⟩ :=
      Option.isSome_iff_exists.mp (h (k, off) (List.mem_cons_self _ _))
    have hidx : pyint k = some idx := hidx0
    have htl : ∀ x ∈ tl, (pyint x.1).isSome = true :=
      fun x hx => h x (List.mem_cons_of_mem _ hx)
    by_cases hin : 0 ≤ idx ∧ idx < (a.element_positions.length : ℤ)
    · have hidxNat : (idx.toNat : ℤ) = idx := Int.toNat_of_nonneg hin.1
      set q : ℝ × ℝ := ((a.element_positions.getD idx.toNat (0, 0)).1 + off.xOff.getD 0,
        (a.element_positions.getD idx.toNat (0, 0)).2 + off.yOff.getD 0) with hq
      set aSet : PhasedArray :=
        { a with element_positions := a.element_positions.set idx.toNat q } with haSet
      have hstep : a.apply_offsets ((k, off) :: tl) = aSet.apply_offsets tl := by
        rw [haSet, hq]
        simp only [PhasedArray.apply_offsets, hidx, if_pos hin]
      obtain ⟨ih1, ih2, ih3⟩ := ih aSet htl
      have hlenSet : aSet.element_positions.length = a.element_positions.length := by
        rw [haSet]
        exact List.length_set _ _ _
      refine ⟨by rw [hstep]; exact ih1, by rw [hstep, ih2, hlenSet], fun j hj => ?_⟩
      have hfin := ih3 j (by rw [hlenSet]; exact hj)
      by_cases hje : idx = (j : ℤ)
      · have hjn : idx.toNat = j := by omega
        have hset : aSet.element_positions.getD j (0, 0) = q := by
          rw [haSet]
          show (a.element_positions.set idx.toNat q).getD j (0, 0) = q
          rw [← hjn]
          exact getD_set_eq _ _ _ _ (by omega)
        have hfilter : ((k, off) :: tl).filter (fun x => pyint x.1 == some (j : ℤ))
            = (k, off) :: tl.filter (fun x => pyint x.1 == some (j : ℤ)) := by
          rw [List.filter_cons, if_pos (by simp [hidx, hje])]
        rw [hstep, hfin, hset, hfilter, hq, hjn]
        simp only [List.map_cons, List.sum_cons]
        rw [Prod.mk.injEq]
        constructor <;> ring
      · have hjn : idx.toNat ≠ j := by omega
        have hset : aSet.element_positions.getD j (0, 0)
            = a.element_positions.getD j (0, 0) := by
          rw [haSet]
          show (a.element_positions.set idx.toNat q).getD j (0, 0) = _
          exact getD_set_ne _ _ _ _ _ hjn
        have hfilter : ((k, off) :: tl).filter (fun x => pyint x.1 == some (j : ℤ))
            = tl.filter (fun x => pyint x.1 == some (j : ℤ)) := by
          rw [List.filter_cons, if_neg (by simp [hidx, hje])]
        rw [hstep, hfin, hset, hfilter]
    · have hstep : a.apply_offsets ((k, off) :: tl) = a.apply_offsets tl := by
        simp only [PhasedArray.apply_offsets, hidx, if_neg hin]
      obtain ⟨ih1, ih2, ih3⟩ := ih a htl
      refine ⟨by rw [hstep]; exact ih1, by rw [hstep]; exact ih2, fun j hj => ?_⟩
      have hje : idx ≠ (j : ℤ) := by
        intro hEq
        exact hin ⟨by omega, by omega⟩
      have hfilter : ((k, off) :: tl).filter (fun x => pyint x.1 == some (j : ℤ))
          = tl.filter (fun x => pyint x.1 == some (j : ℤ)) := by
        rw [List.filter_cons, if_neg (by simp [hidx, hje])]
      rw [hstep, hfilter]
      exact ih3 j hj

/-- C9: when every key of the offsets map parses as an integer,
`apply_offsets` raises no error; each element ends at its original local
position plus the summed (x, y) of the in-range entries naming it (so
entries with out-of-range indices are silently ignored, elements not named
by an in-range entry are unchanged, and the empty map is a no-op, as the
explicit last conjunct states). -/
theorem C9_apply_offsets (a : PhasedArray) (es : List (String × Offset))
    (hlen : a.element_positions.length = a.num_elements)
    (hkeys : ∀ x ∈ es, (pyint x.1).isSome = true) :
    ((a.apply_offsets es).2 = none)
    ∧ (∀ j, j < a.num_elements →
        (a.apply_offsets es).1.element_positions.getD j (0, 0)
          = ((a.element_positions.getD j (0, 0)).1
              + ((es.filter (fun x => pyint x.1 == some (j : ℤ))).map
                  (fun x => x.2.xOff.getD 0)).sum,
             (a.element_positions.getD j (0, 0)).2
              + ((es.filter (fun x => pyint x.1 == some (j : ℤ))).map
                  (fun x => x.2.yOff.getD 0)).sum))
    ∧ (a.apply_offsets [] = (a, none)) := by
  obtain ⟨h1, _, h3⟩ := apply_offsets_parsed es a hkeys
  exact ⟨h1, fun j hj => h3 j (by rw [hlen]; exact hj), rfl⟩

/-- Witness for C9: a 2-element array with one in-range entry ("0") and one
out-of-range entry ("7") raises nothing. -/
theorem C9_witness :
    ((PhasedArray.make 2 "linear" 0 6e8 (0, 0) 0.5).apply_offsets
      [("0", ⟨some 1, some 2⟩), ("7", ⟨some 3, none⟩)]).2 = none :=
  (C9_apply_offsets _ _
    (by rw [make_element_positions, generate_eq, List.length_map, linspace_length]; rfl)
    (by decide)).1

/-- Helper for C10: a malformed key aborts `apply_offsets` with
`ValueError`, keeping exactly the mutations of the entries before it. -/
lemma apply_offsets_malformed (pre : List (String × Offset)) (a : PhasedArray)
    (k : String) (off : Offset) (rest : List (String × Offset))
    (h1 : ∀ x ∈ pre, (pyint x.1).isSome = true) (h2 : pyint k = none) :
    a.apply_offsets (pre ++ (k, off) :: rest)
      = ((a.apply_offsets pre).1,
         some (.valueError "invalid literal for int() with base 10")) := by
  induction pre generalizing a with
  | nil =>
    simp only [List.nil_append]
    simp [PhasedArray.apply_offsets, h2]
  | cons hd tl ih =>
    obtain ⟨k', off'⟩ := hd
    obtain ⟨idx, hidx⟩ :=
      Option.isSome_iff_exists.mp (h1 (k', off') (List.mem_cons_self _ _))
    simp only [List.cons_append, PhasedArray.apply_offsets, hidx]
    exact ih _ (fun x hx => h1 x (List.mem_cons_of_mem _ hx))

/-- Helper for C10: the analogous abort behaviour of
`set_frequency_multipliers`. -/
lemma set_frequency_multipliers_malformed (pre : List (String × ℝ)) (a : PhasedArray)
    (k : String) (mult : ℝ) (rest : List (String × ℝ))
    (h1 : ∀ x ∈ pre, (pyint x.1).isSome = true) (h2 : pyint k = none) :
    a.set_frequency_multipliers (pre ++ (k, mult) :: rest)
      = ((a.set_frequency_multipliers pre).1,
         some (.valueError "invalid literal for int() with base 10")) := by
  induction pre generalizing a with
  | nil =>
    simp only [List.nil_append]
    simp [PhasedArray.set_frequency_multipliers, h2]
  | cons hd tl ih =>
    obtain ⟨k', m'⟩ := hd
    obtain ⟨idx, hidx⟩ :=
      Option.isSome_iff_exists.mp (h1 (k', m') (List.mem_cons_self _ _))
    simp only [List.cons_append, PhasedArray.set_frequency_multipliers, hidx]
    exact ih _ (fun x hx => h1 x (List.mem_cons_of_mem _ hx))

/-- C10: a key that does not parse as an integer makes `apply_offsets`
(resp. `set_frequency_multipliers`) raise `ValueError` from `int()`, and
the mutation is not atomic: the entries iterated before the malformed key
remain applied (the result state is exactly the state after processing the
prefix), while later entries are never processed. -/
theorem C10_malformed_key (a : PhasedArray)
    (pre : List (String × Offset)) (k : String) (off : Offset)
    (rest : List (String × Offset))
    (preM : List (String × ℝ)) (mult : ℝ) (restM : List (String × ℝ))
    (h1 : ∀ x ∈ pre, (pyint x.1).isSome = true)
    (h1M : ∀ x ∈ preM, (pyint x.1).isSome = true)
    (h2 : pyint k = none) :
    (a.apply_offsets (pre ++ (k, off) :: rest)
      = ((a.apply_offsets pre).1,
         some (.valueError "invalid literal for int() with base 10")))
    ∧ (a.set_frequency_multipliers (preM ++ (k, mult) :: restM)
      = ((a.set_frequency_multipliers preM).1,
         some (.valueError "invalid literal for int() with base 10"))) :=
  ⟨apply_offsets_malformed pre a k off rest h1 h2,
   set_frequency_multipliers_malformed preM a k mult restM h1M h2⟩

/-- Witness for C10: entry "0" is applied, then key "abc" raises. -/
theorem C10_witness :
    (PhasedArray.make 2 "linear" 0 6e8 (0, 0) 0.5).apply_offsets
        ([("0", ⟨some 1, none⟩)] ++ ("abc", ⟨some 5, some 5⟩) :: [("1", ⟨some 2, none⟩)])
      = (((PhasedArray.make 2 "linear" 0 6e8 (0, 0) 0.5).apply_offsets
            [("0", ⟨some 1, none⟩)]).1,
         some (.valueError "invalid literal for int() with base 10")) :=
  (C10_malformed_key _ [("0", ⟨some 1, none⟩)] "abc" ⟨some 5, some 5⟩
    [("1", ⟨some 2, none⟩)] [] 1 [] (by decide) (by decide) (by decide)).1

/-! ## The concrete 8-element broadside scenario of C4 -/

/-- The spec's concrete scenario: 8 elements, linear, 1 GHz,
spacingFactor 0.5, steering 0°, no offsets, unit multipliers. -/
def arr8 : PhasedArray := PhasedArray.make 8 "linear" 0 1e9 (0, 0) 0.5

lemma arr8_k : arr8.k = 20 * π / 3 := by
  show 2 * π / (PhasedArray.propagation_speed / 1e9) = 20 * π / 3
  rw [show PhasedArray.propagation_speed / 1e9 = 3 / 10 from by
    unfold PhasedArray.propagation_speed; norm_num]
  ring

lemma arr8_delay :
    arr8.k * arr8.distance * Real.sin (radians arr8.steering_angle) = 0 := by
  have h : radians arr8.steering_angle = 0 := by
    show radians 0 = 0
    unfold radians
    norm_num
  rw [h, Real.sin_zero, mul_zero]

lemma arr8_mult (i : ℕ) (hi : i < 8) : arr8.freq_multipliers.getD i 0 = 1 := by
  show (List.replicate 8 (1 : ℝ)).getD i 0 = 1
  rw [List.getD_eq_getElem?_getD, List.getElem?_replicate, if_pos hi]
  rfl

lemma arr8_pos (i : ℕ) (hi : i < 8) :
    arr8.element_positions.getD i (0, 0) = (-(21 / 40) + (i : ℝ) * (3 / 20), 0) := by
  have h := make_positions_getD 8 "linear" 0 1e9 (0, 0) 0.5 i hi
  rw [if_neg (by decide : ¬("linear" : String) = "curved")] at h
  show (PhasedArray.make 8 "linear" 0 1e9 (0, 0) 0.5).element_positions.getD i (0, 0) = _
  rw [h, linspace_getD _ _ _ i hi, if_neg (by norm_num : ¬(8 : ℕ) = 1)]
  rw [Prod.mk.injEq]
  refine ⟨?_, rfl⟩
  rw [show PhasedArray.propagation_speed / 1e9 * 0.5 = 3 / 20 from by
    unfold PhasedArray.propagation_speed; norm_num]
  push_cast
  ring

lemma arr8_x0 : arr8.element_positions.getD 0 (0, 0) = (-(21 / 40), 0) := by
  rw [arr8_pos 0 (by norm_num), Prod.mk.injEq]
  norm_num

lemma arr8_x1 : arr8.element_positions.getD 1 (0, 0) = (-(3 / 8), 0) := by
  rw [arr8_pos 1 (by norm_num), Prod.mk.injEq]
  norm_num

/-- The far-field element phase when the element sits on the x axis and the
steering delay vanishes. -/
lemma element_phase_y0 (a : PhasedArray) (az : ℝ) (i : ℕ)
    (hy : (a.element_positions.getD i (0, 0)).2 = 0)
    (hd : a.k * a.distance * Real.sin (radians a.steering_angle) = 0) :
    PhasedArray.element_phase a az i
      = -(a.k * a.freq_multipliers.getD i 0)
          * |(a.element_positions.getD i (0, 0)).1|
          * Real.cos (az - arctan2 0 (a.element_positions.getD i (0, 0)).1) := by
  unfold PhasedArray.element_phase
  dsimp only
  rw [hy, hd, mul_zero, add_zero, show (0 : ℝ) ^ 2 = 0 from by norm_num, add_zero,
    Real.sqrt_sq_eq_abs]

lemma cos_sub_arctan2_zero (x : ℝ) : Real.cos (π / 2 - arctan2 0 x) = 0 := by
  rw [Real.cos_pi_div_two_sub]
  unfold arctan2
  rw [Complex.sin_arg]
  simp

lemma arctan2_zero_neg (x : ℝ) (hx : x < 0) : arctan2 0 x = π := by
  unfold arctan2
  rw [show (⟨x, 0⟩ : ℂ) = (x : ℂ) from rfl]
  exact Complex.arg_ofReal_of_neg hx

lemma arr8_phase0 (az : ℝ) :
    PhasedArray.element_phase arr8 az 0
      = -(20 * π / 3) * (21 / 40) * Real.cos (az - π) := by
  rw [element_phase_y0 arr8 az 0 (by rw [arr8_x0]) arr8_delay, arr8_mult 0 (by norm_num)]
  rw [show (arr8.element_positions.getD 0 (0, 0)).1 = -(21 / 40) from by rw [arr8_x0]]
  rw [arctan2_zero_neg _ (by norm_num : -(21 / 40 : ℝ) < 0)]
  rw [abs_of_neg (by norm_num : -(21 / 40 : ℝ) < 0)]
  rw [arr8_k]
  ring

lemma arr8_phase1 (az : ℝ) :
    PhasedArray.element_phase arr8 az 1
      = -(20 * π / 3) * (3 / 8) * Real.cos (az - π) := by
  rw [element_phase_y0 arr8 az 1 (by rw [arr8_x1]) arr8_delay, arr8_mult 1 (by norm_num)]
  rw [show (arr8.element_positions.getD 1 (0, 0)).1 = -(3 / 8) from by rw [arr8_x1]]
  rw [arctan2_zero_neg _ (by norm_num : -(3 / 8 : ℝ) < 0)]
  rw [abs_of_neg (by norm_num : -(3 / 8 : ℝ) < 0)]
  rw [arr8_k]
  ring

lemma abs_exp_I_real (r : ℝ) :
    Complex.abs (Complex.exp (Complex.I * (r : ℂ))) = 1 := by
  rw [mul_comm]
  exact Complex.abs_exp_ofReal_mul_I r

lemma arr8_beam_eq (az : ℝ) :
    PhasedArray.beam_sum arr8 az
      = (Complex.exp (Complex.I * (PhasedArray.element_phase arr8 az 0 : ℝ))
          + Complex.exp (Complex.I * (PhasedArray.element_phase arr8 az 1 : ℝ)))
        + ∑ i ∈ Finset.Ico 2 8,
            Complex.exp (Complex.I * (PhasedArray.element_phase arr8 az i : ℝ)) := by
  show (∑ i ∈ Finset.range 8,
      Complex.exp (Complex.I * (PhasedArray.element_phase arr8 az i : ℝ))) = _
  rw [Finset.range_eq_Ico,
    ← Finset.sum_Ico_consecutive _ (by norm_num : (0 : ℕ) ≤ 2) (by norm_num : (2 : ℕ) ≤ 8)]
  congr 1
  rw [← Finset.range_eq_Ico, Finset.sum_range_succ, Finset.sum_range_one]

lemma arr8_tail_bound (az : ℝ) :
    Complex.abs (∑ i ∈ Finset.Ico 2 8,
        Complex.exp (Complex.I * (PhasedArray.element_phase arr8 az i : ℝ))) ≤ 6 := by
  calc Complex.abs (∑ i ∈ Finset.Ico 2 8,
          Complex.exp (Complex.I * (PhasedArray.element_phase arr8 az i : ℝ)))
      ≤ ∑ i ∈ Finset.Ico 2 8,
          Complex.abs (Complex.exp (Complex.I * (PhasedArray.element_phase arr8 az i : ℝ))) :=
        Complex.abs.sum_le _ _
    _ = ∑ i ∈ Finset.Ico 2 8, (1 : ℝ) :=
        Finset.sum_congr rfl (fun i _ => abs_exp_I_real _)
    _ ≤ 6 := by simp

lemma arr8_mag_le_8 (az : ℝ) : Complex.abs (PhasedArray.beam_sum arr8 az) ≤ 8 := by
  show Complex.abs (∑ i ∈ Finset.range 8,
      Complex.exp (Complex.I * (PhasedArray.element_phase arr8 az i : ℝ))) ≤ 8
  calc Complex.abs (∑ i ∈ Finset.range 8,
          Complex.exp (Complex.I * (PhasedArray.element_phase arr8 az i : ℝ)))
      ≤ ∑ i ∈ Finset.range 8,
          Complex.abs (Complex.exp (Complex.I * (PhasedArray.element_phase arr8 az i : ℝ))) :=
        Complex.abs.sum_le _ _
    _ = ∑ i ∈ Finset.range 8, (1 : ℝ) :=
        Finset.sum_congr rfl (fun i _ => abs_exp_I_real _)
    _ ≤ 8 := by simp

lemma arr8_beam_sum_broadside : PhasedArray.beam_sum arr8 (π / 2) = 8 := by
  show (∑ i ∈ Finset.range 8,
      Complex.exp (Complex.I * (PhasedArray.element_phase arr8 (π / 2) i : ℝ))) = 8
  have hterm : ∀ i ∈ Finset.range 8,
      Complex.exp (Complex.I * (PhasedArray.element_phase arr8 (π / 2) i : ℝ)) = 1 := by
    intro i hi
    rw [Finset.mem_range] at hi
    have hphase : PhasedArray.element_phase arr8 (π / 2) i = 0 := by
      rw [element_phase_y0 arr8 _ i (by rw [arr8_pos i hi]) arr8_delay,
        cos_sub_arctan2_zero]
      ring
    rw [hphase]
    simp
  rw [Finset.sum_congr rfl hterm]
  simp

lemma arr8_pair_zero :
    Complex.exp (Complex.I * (PhasedArray.element_phase arr8 0 0 : ℝ))
      + Complex.exp (Complex.I * (PhasedArray.element_phase arr8 0 1 : ℝ)) = 0 := by
  have h0 : PhasedArray.element_phase arr8 0 0 = 7 * π / 2 := by
    rw [arr8_phase0, zero_sub, Real.cos_neg, Real.cos_pi]
    ring
  have h1 : PhasedArray.element_phase arr8 0 1 = 5 * π / 2 := by
    rw [arr8_phase1, zero_sub, Real.cos_neg, Real.cos_pi]
    ring
  rw [h0, h1, show (7 * π / 2 : ℝ) = 5 * π / 2 + π from by ring,
    Complex.ofReal_add, mul_add, Complex.exp_add,
    show Complex.I * (π : ℂ) = (π : ℂ) * Complex.I from mul_comm _ _,
    Complex.exp_pi_mul_I]
  ring

lemma arr8_mag0_lt : Complex.abs (PhasedArray.beam_sum arr8 0) < 8 := by
  rw [arr8_beam_eq 0]
  calc Complex.abs ((Complex.exp (Complex.I * (PhasedArray.element_phase arr8 0 0 : ℝ))
          + Complex.exp (Complex.I * (PhasedArray.element_phase arr8 0 1 : ℝ)))
        + ∑ i ∈ Finset.Ico 2 8,
            Complex.exp (Complex.I * (PhasedArray.element_phase arr8 0 i : ℝ)))
      ≤ Complex.abs (Complex.exp (Complex.I * (PhasedArray.element_phase arr8 0 0 : ℝ))
          + Complex.exp (Complex.I * (PhasedArray.element_phase arr8 0 1 : ℝ)))
        + Complex.abs (∑ i ∈ Finset.Ico 2 8,
            Complex.exp (Complex.I * (PhasedArray.element_phase arr8 0 i : ℝ))) :=
        Complex.abs.add_le _ _
    _ ≤ 0 + 6 := by
        have h2 := arr8_tail_bound 0
        have h1 : Complex.abs (Complex.exp (Complex.I * (PhasedArray.element_phase arr8 0 0 : ℝ))
            + Complex.exp (Complex.I * (PhasedArray.element_phase arr8 0 1 : ℝ))) = 0 := by
          rw [arr8_pair_zero]
          simp
        rw [h1]
        linarith
    _ < 8 := by norm_num

lemma abs_one_add_exp (t : ℝ) :
    Complex.abs (1 + Complex.exp (Complex.I * (t : ℂ)))
      = 2 * |Real.cos (t / 2)| := by
  have hsplit : (1 : ℂ) + Complex.exp (Complex.I * (t : ℂ))
      = Complex.exp (Complex.I * ((t / 2 : ℝ) : ℂ))
        * (Complex.exp (Complex.I * ((t / 2 : ℝ) : ℂ))
            + Complex.exp (-(Complex.I * ((t / 2 : ℝ) : ℂ)))) := by
    rw [mul_add, ← Complex.exp_add, ← Complex.exp_add,
      show Complex.I * ((t / 2 : ℝ) : ℂ) + Complex.I * ((t / 2 : ℝ) : ℂ)
          = Complex.I * ((t : ℝ) : ℂ) from by push_cast; ring,
      show Complex.I * ((t / 2 : ℝ) : ℂ) + -(Complex.I * ((t / 2 : ℝ) : ℂ)) = 0 from by ring,
      Complex.exp_zero]
    ring
  have h2c : Complex.exp (Complex.I * ((t / 2 : ℝ) : ℂ))
      + Complex.exp (-(Complex.I * ((t / 2 : ℝ) : ℂ)))
      = 2 * Complex.cos ((t / 2 : ℝ) : ℂ) := by
    rw [Complex.two_cos, neg_mul, mul_comm ((t / 2 : ℝ) : ℂ) Complex.I]
  rw [hsplit, map_mul, abs_exp_I_real, one_mul, h2c, ← Complex.ofReal_cos, map_mul,
    Complex.abs_two, Complex.abs_ofReal]

lemma arr8_pair_pi6_lt :
    Complex.abs (Complex.exp (Complex.I * (PhasedArray.element_phase arr8 (π / 6) 0 : ℝ))
      + Complex.exp (Complex.I * (PhasedArray.element_phase arr8 (π / 6) 1 : ℝ))) < 2 := by
  have hc : Real.cos (π / 6 - π) = -(Real.sqrt 3 / 2) := by
    rw [show (π / 6 - π : ℝ) = -(π - π / 6) from by ring, Real.cos_neg,
      Real.cos_pi_sub, Real.cos_pi_div_six]
  have h0 : PhasedArray.element_phase arr8 (π / 6) 0 = 7 * Real.sqrt 3 * π / 4 := by
    rw [arr8_phase0, hc]
    ring
  have h1 : PhasedArray.element_phase arr8 (π / 6) 1 = 5 * Real.sqrt 3 * π / 4 := by
    rw [arr8_phase1, hc]
    ring
  have hfac : Complex.exp (Complex.I * ((7 * Real.sqrt 3 * π / 4 : ℝ) : ℂ))
      + Complex.exp (Complex.I * ((5 * Real.sqrt 3 * π / 4 : ℝ) : ℂ))
      = Complex.exp (Complex.I * ((5 * Real.sqrt 3 * π / 4 : ℝ) : ℂ))
        * (1 + Complex.exp (Complex.I * ((Real.sqrt 3 * π / 2 : ℝ) : ℂ))) := by
    rw [mul_add, mul_one, ← Complex.exp_add,
      show Complex.I * ((5 * Real.sqrt 3 * π / 4 : ℝ) : ℂ)
            + Complex.I * ((Real.sqrt 3 * π / 2 : ℝ) : ℂ)
          = Complex.I * ((7 * Real.sqrt 3 * π / 4 : ℝ) : ℂ) from by push_cast; ring]
    ring
  rw [h0, h1, hfac, map_mul, abs_exp_I_real, one_mul, abs_one_add_exp,
    show (Real.sqrt 3 * π / 2) / 2 = Real.sqrt 3 * π / 4 from by ring]
  have hs3 : Real.sqrt 3 < 4 := by
    nlinarith [Real.sq_sqrt (show (0 : ℝ) ≤ 3 from by norm_num), Real.sqrt_nonneg 3]
  have hu0 : 0 < Real.sqrt 3 * π / 4 := by positivity
  have hupi : Real.sqrt 3 * π / 4 < π := by nlinarith [Real.pi_pos]
  have hlt : Real.cos (Real.sqrt 3 * π / 4) < 1 := by
    have h := Real.cos_lt_cos_of_nonneg_of_le_pi (le_refl 0) hupi.le hu0
    rwa [Real.cos_zero] at h
  have hgt : -1 < Real.cos (Real.sqrt 3 * π / 4) := by
    have h := Real.cos_lt_cos_of_nonneg_of_le_pi hu0.le (le_refl π) hupi
    rwa [Real.cos_pi] at h
  have habs : |Real.cos (Real.sqrt 3 * π / 4)| < 1 := abs_lt.mpr ⟨hgt, hlt⟩
  linarith

lemma arr8_mag1_lt : Complex.abs (PhasedArray.beam_sum arr8 (π / 6)) < 8 := by
  rw [arr8_beam_eq (π / 6)]
  calc Complex.abs ((Complex.exp (Complex.I * (PhasedArray.element_phase arr8 (π / 6) 0 : ℝ))
          + Complex.exp (Complex.I * (PhasedArray.element_phase arr8 (π / 6) 1 : ℝ)))
        + ∑ i ∈ Finset.Ico 2 8,
            Complex.exp (Complex.I * (PhasedArray.element_phase arr8 (π / 6) i : ℝ)))
      ≤ Complex.abs (Complex.exp (Complex.I * (PhasedArray.element_phase arr8 (π / 6) 0 : ℝ))
          + Complex.exp (Complex.I * (PhasedArray.element_phase arr8 (π / 6) 1 : ℝ)))
        + Complex.abs (∑ i ∈ Finset.Ico 2 8,
            Complex.exp (Complex.I * (PhasedArray.element_phase arr8 (π / 6) i : ℝ))) :=
        Complex.abs.add_le _ _
    _ < 8 := by
        have h1 := arr8_pair_pi6_lt
        have h2 := arr8_tail_bound (π / 6)
        linarith

lemma getD_out {α : Type} (l : List α) (i : ℕ) (d : α) (h : l.length ≤ i) :
    l.getD i d = d := by
  rw [List.getD_eq_getElem?_getD, List.getElem?_eq_none h]
  rfl

lemma arr8_az (j : ℕ) (hj : j < 4) :
    (linspace (radians 0) (radians 90) 4).getD j 0 = (j : ℝ) * (π / 6) := by
  rw [linspace_getD _ _ _ j hj, if_neg (by norm_num : ¬(4 : ℕ) = 1)]
  unfold radians
  push_cast
  field_simp
  ring

lemma arr8_mag (j : ℕ) (hj : j < 4) :
    (PhasedArray.get_beam_profile arr8 0 90 4).2.getD j 0
      = Complex.abs (PhasedArray.beam_sum arr8 ((j : ℝ) * (π / 6))) := by
  unfold PhasedArray.get_beam_profile
  dsimp only
  rw [getD_map (fun az => Complex.abs (arr8.beam_sum az))
    (linspace (radians 0) (radians 90) 4) j (by rw [linspace_length]; exact hj) 0 0]
  rw [arr8_az j hj]

lemma arr8_mag_len : (PhasedArray.get_beam_profile arr8 0 90 4).2.length = 4 := by
  unfold PhasedArray.get_beam_profile
  dsimp only
  rw [List.length_map, linspace_length]

lemma arr8_ang (j : ℕ) (hj : j < 4) :
    (PhasedArray.get_beam_profile arr8 0 90 4).1.getD j 0 = (j : ℝ) * 30 := by
  unfold PhasedArray.get_beam_profile
  dsimp only
  rw [getD_map degrees (linspace (radians 0) (radians 90) 4) j
    (by rw [linspace_length]; exact hj) 0 0]
  rw [arr8_az j hj]
  unfold degrees
  have hπ : π ≠ 0 := Real.pi_ne_zero
  field_simp
  ring

lemma arr8_m3 : (PhasedArray.get_beam_profile arr8 0 90 4).2.getD 3 0 = 8 := by
  rw [arr8_mag 3 (by norm_num),
    show ((3 : ℕ) : ℝ) * (π / 6) = π / 2 from by push_cast; ring,
    arr8_beam_sum_broadside]
  simp

lemma arr8_m0_lt : (PhasedArray.get_beam_profile arr8 0 90 4).2.getD 0 0 < 8 := by
  rw [arr8_mag 0 (by norm_num),
    show ((0 : ℕ) : ℝ) * (π / 6) = 0 from by push_cast; ring]
  exact arr8_mag0_lt

lemma arr8_m1_lt : (PhasedArray.get_beam_profile arr8 0 90 4).2.getD 1 0 < 8 := by
  rw [arr8_mag 1 (by norm_num),
    show ((1 : ℕ) : ℝ) * (π / 6) = π / 6 from by push_cast; ring]
  exact arr8_mag1_lt

/-- C4 counterexample: for the spec's 8-element broadside scenario, sampled
over [0°, 90°] with 4 points (step 30°), the profile's global maximum (8,
attained at the sample at 90° azimuth) is strictly above the magnitudes at
the samples 0° and 30° — the only samples within one angular step of 0° —
so the global maximum is NOT attained at azimuth 0° within one sampling
step. -/
theorem C4_counterexample :
    (PhasedArray.get_beam_profile arr8 0 90 4).1.getD 0 0 = 0
    ∧ (PhasedArray.get_beam_profile arr8 0 90 4).1.getD 1 0 = 30
    ∧ (PhasedArray.get_beam_profile arr8 0 90 4).1.getD 3 0 = 90
    ∧ (PhasedArray.get_beam_profile arr8 0 90 4).2.getD 3 0 = 8
    ∧ (PhasedArray.get_beam_profile arr8 0 90 4).2.getD 0 0
        < (PhasedArray.get_beam_profile arr8 0 90 4).2.getD 3 0
    ∧ (PhasedArray.get_beam_profile arr8 0 90 4).2.getD 1 0
        < (PhasedArray.get_beam_profile arr8 0 90 4).2.getD 3 0 := by
  refine ⟨?_, ?_, ?_, arr8_m3, ?_, ?_⟩
  · rw [arr8_ang 0 (by norm_num)]
    norm_num
  · rw [arr8_ang 1 (by norm_num)]
    norm_num
  · rw [arr8_ang 3 (by norm_num)]
    norm_num
  · rw [arr8_m3]
    exact arr8_m0_lt
  · rw [arr8_m3]
    exact arr8_m1_lt

/-- C4 amended: in this azimuth convention the array lies along the x axis,
so broadside (steering 0°) is azimuth 90°: over [0°, 90°] with 4 samples the
beam profile attains its global maximum at the sample at azimuth 90°, and
that peak magnitude equals the element count 8 exactly (so certainly within
1e-6). -/
theorem C4_broadside_peak (j : ℕ) :
    (PhasedArray.get_beam_profile arr8 0 90 4).1.getD 3 0 = 90
    ∧ (PhasedArray.get_beam_profile arr8 0 90 4).2.getD 3 0 = 8
    ∧ (PhasedArray.get_beam_profile arr8 0 90 4).2.getD j 0
        ≤ (PhasedArray.get_beam_profile arr8 0 90 4).2.getD 3 0 := by
  refine ⟨by rw [arr8_ang 3 (by norm_num)]; norm_num, arr8_m3, ?_⟩
  rw [arr8_m3]
  rcases lt_or_ge j 4 with hj | hj
  · rw [arr8_mag j hj]
    exact arr8_mag_le_8 _
  · rw [getD_out _ _ _ (by rw [arr8_mag_len]; exact hj)]
    norm_num

/-- Witness for C4 at the concrete sample index 2. -/
theorem C4_witness :
    (PhasedArray.get_beam_profile arr8 0 90 4).2.getD 2 0
      ≤ (PhasedArray.get_beam_profile arr8 0 90 4).2.getD 3 0 :=
  (C4_broadside_peak 2).2.2

/-- Witness for C6 at a concrete 3-element array. -/
theorem C6_witness :
    (PhasedArray.make 3 "curved" 0 6e8 (0, 0) 0.5).element_positions
      = (PhasedArray.make 3 "linear" 0 6e8 (0, 0) 0.5).element_positions.map
          (fun p => (p.1, p.2 + 0.2)) :=
  C6_curved_zero_curvature 3 6e8 (0, 0) 0.5

/-- Witness for C7 at a concrete array and input 500°. -/
theorem C7_witness :
    (PhasedArray.set_steering_angle
        (PhasedArray.make 2 "linear" 0 6e8 (0, 0) 0.5) 500).steering_angle < 180 :=
  (C7_steering_angle_normalization (PhasedArray.make 2 "linear" 0 6e8 (0, 0) 0.5) 500).2.2

end

end Mixer
